import Mathlib

/-!
Shallow embedding of the streaming sales aggregator in
src/sales_processor.py (class SalesProcessor), together with proofs of
the specification claims about it.

Modelling conventions:
* pandas DataFrame chunks are lists of SalesRow records; numeric columns
  are embedded exactly (units as Int, revenue as the exact rationals);
  the type "downcasting" steps of the code are lossless re-encodings and
  are therefore semantically the identity on values.
* Python insertion-ordered dicts are association lists; the code's
  dict updates keep an existing key in place and append a new key at the
  end, which bumpKey and bumpMonthly reproduce.
* pandas groupby with the default sort behaviour emits one entry per key
  occurring in the chunk, keys in sorted order, each with the sum of the
  value column over the rows of that key; with its default dropna
  behaviour rows whose group key contains a null (NaT month) are dropped.
* pd.to_datetime with coercion turns unparseable dates into NaT, which
  is embedded as an order_date of none.
-/

/-- Python whitespace characters recognised by str.strip, ASCII fragment:
space, tab, newline, carriage return, vertical tab, form feed. -/
def isPySpace (c : Char) : Bool :=
  c.toNat = 32 || c.toNat = 9 || c.toNat = 10 || c.toNat = 13 ||
    c.toNat = 11 || c.toNat = 12

/-- One character of the .str.replace step of line 68: a space character
becomes an underscore, everything else is unchanged. -/
def repSpace (c : Char) : Char := if c = ' ' then '_' else c

/-- One character of the .str.lower step of line 68, ASCII fragment:
codes 65 to 90 shift to 97 to 122, everything else is unchanged. -/
def pyLower (c : Char) : Char :=
  if 65 ≤ c.toNat ∧ c.toNat ≤ 90 then Char.ofNat (c.toNat + 32) else c

/-- Python str.strip on a character list: drop whitespace at both ends. -/
def pyStrip (l : List Char) : List Char :=
  ((l.dropWhile isPySpace).reverse.dropWhile isPySpace).reverse

/-- The per-character action of the replace and lower steps of line 68. -/
def normChar (c : Char) : Char := pyLower (repSpace c)

/-- Column-name normalization of line 68:
columns.str.strip().str.replace(space, underscore).str.lower(). -/
def normalizeColumn (s : String) : String :=
  String.mk ((pyStrip s.data).map normChar)

/-- Follows the spec wording of section 4.2 rather than the code: strip
leading and trailing whitespace, replace every internal WHITESPACE
character (not only spaces) with an underscore, lowercase. Used to
compare the spec wording against normalizeColumn. -/
def specNormalizeColumn (s : String) : String :=
  String.mk ((pyStrip s.data).map (fun c =>
    pyLower (if isPySpace c then '_' else c)))

/-- A parsed calendar date (pd.Timestamp with day precision). -/
structure PDate where
  year : Nat
  month : Nat
  day : Nat
  deriving DecidableEq

/-- One row of the sales CSV after type compaction: category columns as
strings, units as exact integers, revenue as an exact rational, dates
already coerced (none models NaT from a failed parse). -/
structure SalesRow where
  item_type : String
  sales_channel : String
  country : String
  region : String
  units_sold : Int
  total_revenue : ℚ
  order_date : Option PDate
  ship_date : Option PDate
  deriving DecidableEq

/-- Month key of line 99: order_date truncated to year and month by
to_period; a NaT date stays NaT (none). -/
def monthOf (r : SalesRow) : Option (Nat × Nat) :=
  r.order_date.map (fun d => (d.year, d.month))

/-- Key of the monthly_sales dict: the (item_type, month) pair. -/
abbrev PMKey := String × Option (Nat × Nat)

/-- Lookup in an insertion-ordered dict, with the zero the code installs
when it first creates a key. -/
def lookupD [DecidableEq K] [Zero V] : List (K × V) → K → V
  | [], _ => 0
  | p :: t, k => if k = p.1 then p.2 else lookupD t k

/-- Dict update of lines 42 to 44: if the key is absent install it at 0
(appending it at the end, as Python dicts keep insertion order), then
add the value at the key in place. -/
def bumpKey [DecidableEq K] [AddCommMonoid V] :
    List (K × V) → K → V → List (K × V)
  | [], k, v => [(k, 0 + v)]
  | p :: t, k, v =>
      if k = p.1 then (p.1, p.2 + v) :: t else p :: bumpKey t k v

/-- monthly_sales update of lines 102 to 107: if the (product, month)
key is absent install it at [0, 0] (appended at the end), then add the
group total to the first component and one to the batch count. -/
def bumpMonthly : List (PMKey × (ℚ × Nat)) → PMKey → ℚ →
    List (PMKey × (ℚ × Nat))
  | [], k, v => [(k, (0 + v, 0 + 1))]
  | p :: t, k, v =>
      if k = p.1 then (p.1, (p.2.1 + v, p.2.2 + 1)) :: t
      else p :: bumpMonthly t k v

/-- Strict lexicographic order on character lists, by code point, as
Python compares strings. -/
def charsLtB : List Char → List Char → Bool
  | [], [] => false
  | [], _ :: _ => true
  | _ :: _, [] => false
  | a :: s, b :: t =>
      if a.toNat < b.toNat then true
      else if a.toNat = b.toNat then charsLtB s t
      else false

/-- Lexicographic less-or-equal on character lists. -/
def charsLeB (a b : List Char) : Bool := charsLtB a b || a == b

/-- Order on String used for the sorted groupby keys: Python string
order, lexicographic by code point. -/
def strLe (a b : String) : Prop := charsLeB a.data b.data = true

instance : DecidableRel strLe :=
  fun a b => inferInstanceAs (Decidable (charsLeB a.data b.data = true))

/-- Order on month keys: none (NaT) sorts first; concrete months sort by
year then month. Rows with a NaT month are dropped before grouping, so
the position of none is never observable. -/
def monthLeB : Option (Nat × Nat) → Option (Nat × Nat) → Bool
  | none, _ => true
  | some _, none => false
  | some a, some b => decide (a.1 < b.1) || (a.1 == b.1 && decide (a.2 ≤ b.2))

/-- Lexicographic order on (item_type, month) groupby keys. -/
def pmLeB (a b : PMKey) : Bool :=
  if a.1 = b.1 then monthLeB a.2 b.2 else charsLtB a.1.data b.1.data

/-- Propositional form of pmLeB for insertionSort. -/
def pmLe (a b : PMKey) : Prop := pmLeB a b = true

instance : DecidableRel pmLe :=
  fun a b => inferInstanceAs (Decidable (pmLeB a b = true))

/-- pandas groupby(keyf, observed).agg(sum of valf): one entry per key
occurring in the rows, keys in sorted order (groupby sorts keys by
default), each entry holding the sum of the value column over the rows
with that key. -/
def groupSums [DecidableEq K] (le : K → K → Prop) [DecidableRel le]
    [AddCommMonoid V] (keyf : R → K) (valf : R → V) (rows : List R) :
    List (K × V) :=
  (List.insertionSort le ((rows.map keyf).dedup)).map
    (fun k => (k, ((rows.filter (fun r => keyf r = k)).map valf).sum))

/-- _update_sales_totals (lines 26 to 44): group the chunk by the group
column, sum the value column per group, then fold each group sum into
the running dict. -/
def updateSalesTotals [DecidableEq K] [AddCommMonoid V]
    (le : K → K → Prop) [DecidableRel le]
    (keyf : SalesRow → K) (valf : SalesRow → V)
    (rows : List SalesRow) (d : List (K × V)) : List (K × V) :=
  (groupSums le keyf valf rows).foldl (fun acc p => bumpKey acc p.1 p.2) d

/-- Monthly grouping of lines 99 to 100: group by (item_type, month) and
sum total_revenue. groupby drops rows whose month key is NaT (its
default dropna behaviour), hence the filter on isSome. -/
def monthlyGroupOf (rows : List SalesRow) : List (PMKey × ℚ) :=
  groupSums pmLe (fun r => (r.item_type, monthOf r))
    (fun r => r.total_revenue)
    (rows.filter (fun r => (monthOf r).isSome))

/-- The five running aggregate dicts of the processor (lines 20 to 24). -/
structure SalesState where
  product_sales : List (String × Int)
  sales_channel_sales : List (String × Int)
  country_sales : List (String × ℚ)
  region_sales : List (String × ℚ)
  monthly_sales : List (PMKey × (ℚ × Nat))
  deriving DecidableEq

/-- The dicts start empty in the constructor. -/
def initState : SalesState := ⟨[], [], [], [], []⟩

/-- _process_chunk (lines 59 to 110) on an already well-formed chunk:
the four dimension updates of lines 87 to 96 followed by the monthly
accumulator update of lines 99 to 107. Column normalization and type
compaction act on representations, not values, and the resource print
is pure telemetry. -/
def processChunk (st : SalesState) (rows : List SalesRow) : SalesState :=
  ⟨updateSalesTotals strLe (fun r => r.item_type) (fun r => r.units_sold)
      rows st.product_sales,
    updateSalesTotals strLe (fun r => r.sales_channel) (fun r => r.units_sold)
      rows st.sales_channel_sales,
    updateSalesTotals strLe (fun r => r.country) (fun r => r.total_revenue)
      rows st.country_sales,
    updateSalesTotals strLe (fun r => r.region) (fun r => r.total_revenue)
      rows st.region_sales,
    (monthlyGroupOf rows).foldl (fun d p => bumpMonthly d p.1 p.2)
      st.monthly_sales⟩

/-- Process a list of batches in order, starting from the empty state,
as the read loop of process_sales_data does. -/
def runChunks (bs : List (List SalesRow)) : SalesState :=
  bs.foldl processChunk initState

/-- Split a file's rows into consecutive batches of at most n rows, as
pd.read_csv with a chunksize does (the last batch may be shorter). -/
def chunkList (n : Nat) : List α → List (List α)
  | [] => []
  | x :: xs => (x :: xs.take (n - 1)) :: chunkList n (xs.drop (n - 1))
  termination_by l => l.length
  decreasing_by
    simp only [List.length_cons, List.length_drop]
    omega

/-- Constructor state of __init__ (lines 6 to 17): the file path, the
chunk size and the sample fraction are stored; sample_fraction is never
read again anywhere in the class. -/
structure SalesProcessor where
  file_path : String
  chunksize : Nat
  sample_fraction : ℚ

/-- process_sales_data (lines 112 to 126): read the file in chunks of
chunksize rows and fold every chunk into the running aggregates. -/
def processSalesData (p : SalesProcessor) (fileRows : List SalesRow) :
    SalesState :=
  (chunkList p.chunksize fileRows).foldl processChunk initState

/-- Errors the embedded program can raise: a KeyError on a column that
is absent after normalization, and the ValueError of max on an empty
dict. -/
inductive Err where
  | missingColumn : String → Err
  | emptyAggregate : Err
  deriving DecidableEq

/-- A raw chunk as read from the CSV: the set of column names it carries
and its rows. Row field values of absent columns are never consulted;
the header decides which column accesses succeed. -/
structure RawChunk where
  header : List String
  rows : List SalesRow
  deriving DecidableEq

/-- The column names _process_chunk reads, in source order: the two date
conversions of lines 79 and 80, then the four grouped aggregations of
lines 87 to 96 (group column before value column, as the groupby runs
before the agg), then the monthly grouping of lines 99 to 100. -/
def columnUseOrder : List String :=
  ["order_date", "ship_date", "item_type", "units_sold", "sales_channel",
    "units_sold", "country", "total_revenue", "region", "total_revenue",
    "item_type", "total_revenue"]

/-- The columns required by grouping or value aggregation. -/
def requiredColumns : List String :=
  ["item_type", "sales_channel", "country", "region", "units_sold",
    "total_revenue", "order_date"]

/-- _process_chunk on a raw chunk: normalize the header, then the first
column access that does not find its column raises a KeyError, exactly
the first name in use order absent from the normalized header; if every
access succeeds the chunk is aggregated. -/
def processChunkChecked (st : SalesState) (c : RawChunk) :
    Except Err SalesState :=
  match columnUseOrder.find?
      (fun col => decide (col ∉ c.header.map normalizeColumn)) with
  | some col => Except.error (Err.missingColumn col)
  | none => Except.ok (processChunk st c.rows)

/-- The read loop of process_sales_data over raw chunks: the first
failing chunk aborts the whole run. -/
def processAllChecked (st : SalesState) (cs : List RawChunk) :
    Except Err SalesState :=
  cs.foldlM processChunkChecked st

/-- Python max over dict keys with the dict lookup as the key function:
scan the entries keeping the current best, replacing it only on a
strictly larger value, so the first of several maximal entries wins. -/
def maxKeyGo [LinearOrder V] (k : K) (v : V) : List (K × V) → K
  | [] => k
  | p :: t => if v < p.2 then maxKeyGo p.1 p.2 t else maxKeyGo k v t

/-- max(dict, key) of print_summary: none on an empty dict (where Python
max raises ValueError), otherwise the first maximal key. -/
def maxKeyFirst [LinearOrder V] : List (K × V) → Option K
  | [] => none
  | p :: t => some (maxKeyGo p.1 p.2 t)

/-- max on a dict, as an Except: the empty dict raises. -/
def getMaxKey [LinearOrder V] (d : List (K × V)) : Except Err K :=
  match maxKeyFirst d with
  | none => Except.error Err.emptyAggregate
  | some k => Except.ok k

/-- The final per-key averages of line 143: running total divided by
running batch count. -/
def monthlyAvgSales (st : SalesState) : List (PMKey × ℚ) :=
  st.monthly_sales.map (fun p => (p.1, p.2.1 / (p.2.2 : ℚ)))

/-- The data print_summary renders: the four selected maxima with their
values, and the monthly averages map. -/
structure Summary where
  most_sold_product : String
  most_sold_product_qty : Int
  most_sold_channel : String
  most_sold_channel_qty : Int
  top_country : String
  top_country_total : ℚ
  top_region : String
  top_region_total : ℚ
  monthly_avg_sales : List (PMKey × ℚ)
  deriving DecidableEq

/-- print_summary (lines 128 to 144): select the four maxima in source
order (the first empty dict raises), then compute monthly averages. -/
def printSummary (st : SalesState) : Except Err Summary := do
  let p ← getMaxKey st.product_sales
  let ch ← getMaxKey st.sales_channel_sales
  let co ← getMaxKey st.country_sales
  let re ← getMaxKey st.region_sales
  Except.ok ⟨p, lookupD st.product_sales p,
    ch, lookupD st.sales_channel_sales ch,
    co, lookupD st.country_sales co,
    re, lookupD st.region_sales re,
    monthlyAvgSales st⟩

/-- A full run: scan all chunks, then report. -/
def fullRun (cs : List RawChunk) : Except Err Summary :=
  (processAllChecked initState cs).bind printSummary

/-- Sum of the values of the entries of an association list carrying a
given key. -/
def sumVals [DecidableEq K] [AddCommMonoid V] (k : K) (g : List (K × V)) : V :=
  ((g.filter (fun p => p.1 = k)).map Prod.snd).sum

/-- Sum of a value column over the rows whose key column equals k. -/
def rowSumBy [DecidableEq K] [AddCommMonoid V]
    (keyf : R → K) (valf : R → V) (k : K) (rows : List R) : V :=
  ((rows.filter (fun r => keyf r = k)).map valf).sum

/-- The expected header of the sales CSV (section 6 of the spec), in
already-normalized form. -/
def fullHeader : List String :=
  ["region", "country", "item_type", "sales_channel", "order_date",
    "ship_date", "units_sold", "total_revenue"]

/-- Concrete row: product P, month 2021-01, revenue 100. -/
def rowP100 : SalesRow :=
  ⟨"P", "Online", "Brazil", "South America", 1, 100,
    some ⟨2021, 1, 5⟩, none⟩

/-- Concrete row: product P, month 2021-01, revenue 300. -/
def rowP300 : SalesRow :=
  ⟨"P", "Online", "Brazil", "South America", 2, 300,
    some ⟨2021, 1, 20⟩, none⟩

/-- First row of the end-to-end scenario of section 8. -/
def rowE1 : SalesRow :=
  ⟨"Electronics", "Online", "Brazil", "South America", 10, 100,
    some ⟨2021, 1, 5⟩, none⟩

/-- Second row of the end-to-end scenario of section 8. -/
def rowE2 : SalesRow :=
  ⟨"Electronics", "Online", "Brazil", "South America", 5, 50,
    some ⟨2021, 1, 20⟩, none⟩

/-- Third row of the end-to-end scenario of section 8. -/
def rowE3 : SalesRow :=
  ⟨"Furniture", "Retail", "USA", "North America", 20, 500,
    some ⟨2021, 2, 10⟩, none⟩

/-- A row whose order_date failed to parse and was coerced to NaT. -/
def rowNullDate : SalesRow :=
  ⟨"Electronics", "Online", "Brazil", "South America", 10, 100,
    none, none⟩

/-- Two runs agree at key k on the two units dicts (integer sums): the
looked-up running sums are equal and the key is present in one dict
exactly when it is present in the other (Python dict equality compares
key sets and values, not insertion order). -/
def unitsDimsAgree (bs1 bs2 : List (List SalesRow)) (k : String) : Prop :=
  (lookupD ((runChunks bs1).product_sales) k
      = lookupD ((runChunks bs2).product_sales) k
    ∧ (k ∈ ((runChunks bs1).product_sales).map Prod.fst
        ↔ k ∈ ((runChunks bs2).product_sales).map Prod.fst))
  ∧ (lookupD ((runChunks bs1).sales_channel_sales) k
      = lookupD ((runChunks bs2).sales_channel_sales) k
    ∧ (k ∈ ((runChunks bs1).sales_channel_sales).map Prod.fst
        ↔ k ∈ ((runChunks bs2).sales_channel_sales).map Prod.fst))

/-- Two runs agree at key k on the two revenue dicts of the
exact-arithmetic idealization (revenue summed as exact rationals): the
algebraic content of the merge, without float64 rounding. -/
def revenueDimsAgreeExact (bs1 bs2 : List (List SalesRow)) (k : String) :
    Prop :=
  (lookupD ((runChunks bs1).country_sales) k
      = lookupD ((runChunks bs2).country_sales) k
    ∧ (k ∈ ((runChunks bs1).country_sales).map Prod.fst
        ↔ k ∈ ((runChunks bs2).country_sales).map Prod.fst))
  ∧ (lookupD ((runChunks bs1).region_sales) k
      = lookupD ((runChunks bs2).region_sales) k
    ∧ (k ∈ ((runChunks bs1).region_sales).map Prod.fst
        ↔ k ∈ ((runChunks bs2).region_sales).map Prod.fst))

/-!
IEEE-754 binary64 model, for the revenue columns the program actually
sums as numpy float64. A float is a significand times a power of two;
fadd is correctly rounded addition (round to nearest, ties to even),
which is the IEEE semantics of float64 addition. The model covers the
normal range; overflow, subnormals, infinities and NaN are outside the
values exercised here. Everything is integer arithmetic, so the kernel
can evaluate it.
-/

/-- A binary64 value: the rational m times 2 to the e. fadd keeps m
normalized (2 to the 52 at most m, m below 2 to the 53, or zero), so
distinct representations produced by fadd denote distinct reals. -/
structure Fp where
  m : Int
  e : Int
  deriving DecidableEq

/-- Floor of the base-2 logarithm, by structural recursion on fuel so
the kernel can evaluate it. -/
def log2Fuel : Nat → Nat → Nat
  | 0, _ => 0
  | fuel + 1, n => if n < 2 then 0 else log2Fuel fuel (n / 2) + 1

/-- Round the positive integer M (value M times 2 to the E) to a 53-bit
significand, round to nearest with ties to even, normalizing into
[2 to the 52, 2 to the 53). -/
def normPos (M : Nat) (E : Int) : Fp :=
  let b := log2Fuel M M
  if b ≤ 52 then ⟨M * 2 ^ (52 - b), E - (52 - b)⟩
  else
    let s := b - 52
    let q := M / 2 ^ s
    let r := M % 2 ^ s
    let half := 2 ^ (s - 1)
    let q2 := if r > half then q + 1
      else if r < half then q
      else if q % 2 = 0 then q else q + 1
    if q2 = 2 ^ 53 then ⟨2 ^ 52, E + s + 1⟩ else ⟨q2, E + s⟩

/-- Round a signed exact sum to binary64. -/
def roundM (M : Int) (E : Int) : Fp :=
  if M = 0 then ⟨0, 0⟩
  else if M > 0 then normPos M.toNat E
  else
    let f := normPos (-M).toNat E
    ⟨-f.m, f.e⟩

/-- Correctly rounded binary64 addition: align the two summands on the
smaller exponent, add exactly, round the result. -/
def fadd (x y : Fp) : Fp :=
  let e := min x.e y.e
  roundM (x.m * 2 ^ ((x.e - e).toNat) + y.m * 2 ^ ((y.e - e).toNat)) e

/-- The float64 zero, the accumulator start of numpy sum and of the
dict update (sales_dict[key] = 0). -/
def fzero : Fp := ⟨0, 0⟩

/-- numpy float64 sum of a small group: sequential left-to-right
accumulation from zero (numpy is sequential below its pairwise block
size). -/
def fSumList (l : List Fp) : Fp := l.foldl fadd fzero

/-- The country groupby of lines 93 and 38 with float64 revenue: one
entry per country in sorted key order, each the float64 sum of the
revenue of its rows. -/
def groupSumsF (rows : List (String × Fp)) : List (String × Fp) :=
  (List.insertionSort strLe ((rows.map Prod.fst).dedup)).map
    (fun k => (k, fSumList ((rows.filter (fun r => r.1 = k)).map Prod.snd)))

/-- The dict update of lines 42 to 44 with float64 values: install an
absent key at 0 then add with float64 addition. -/
def bumpKeyF : List (String × Fp) → String → Fp → List (String × Fp)
  | [], k, v => [(k, fadd fzero v)]
  | p :: t, k, v =>
      if k = p.1 then (p.1, fadd p.2 v) :: t else p :: bumpKeyF t k v

/-- _update_sales_totals for the (country, total_revenue) pair with
float64 arithmetic. -/
def updateCountryF (rows : List (String × Fp)) (d : List (String × Fp)) :
    List (String × Fp) :=
  (groupSumsF rows).foldl (fun acc p => bumpKeyF acc p.1 p.2) d

/-- The running country_sales dict over a batch list with float64
arithmetic, from the empty dict. -/
def runCountryF (bs : List (List (String × Fp))) : List (String × Fp) :=
  bs.foldl (fun d rows => updateCountryF rows d) []

/-- Plain association-list lookup for float dicts. -/
def lookupF : List (String × Fp) → String → Option Fp
  | [], _ => none
  | p :: t, k => if k = p.1 then some p.2 else lookupF t k

/-- The binary64 value nearest 0.1. -/
def fp01 : Fp := ⟨3602879701896397, -55⟩

/-- The binary64 value nearest 0.2. -/
def fp02 : Fp := ⟨3602879701896397, -54⟩

/-- The binary64 value nearest 0.3. -/
def fp03 : Fp := ⟨5404319552844595, -54⟩

/-! Character-level facts about normalization. -/

theorem char_toNat_ofNat (n : Nat) (h : n < 55296) : (Char.ofNat n).toNat = n := by
  have hv : n.isValidChar := Or.inl h
  unfold Char.ofNat
  rw [dif_pos hv]
  rfl

theorem char_eq_of_toNat_eq (a b : Char) (h : a.toNat = b.toNat) : a = b := by
  apply Char.ext
  exact UInt32.toNat.inj h

theorem pyLower_toNat (c : Char) :
    (pyLower c).toNat =
      if 65 ≤ c.toNat ∧ c.toNat ≤ 90 then c.toNat + 32 else c.toNat := by
  unfold pyLower
  by_cases h : 65 ≤ c.toNat ∧ c.toNat ≤ 90
  · rw [if_pos h, if_pos h, char_toNat_ofNat (c.toNat + 32) (by omega)]
  · rw [if_neg h, if_neg h]

theorem repSpace_toNat (c : Char) :
    (repSpace c).toNat = if c.toNat = 32 then 95 else c.toNat := by
  unfold repSpace
  by_cases h : c = ' '
  · subst h; rfl
  · have hn : ¬(c.toNat = 32) := fun h32 => h (char_eq_of_toNat_eq c (' ') h32)
    rw [if_neg h, if_neg hn]

theorem normChar_toNat (c : Char) :
    (normChar c).toNat =
      if c.toNat = 32 then 95
      else if 65 ≤ c.toNat ∧ c.toNat ≤ 90 then c.toNat + 32
      else c.toNat := by
  unfold normChar
  rw [pyLower_toNat, repSpace_toNat]
  by_cases h : c.toNat = 32
  · rw [if_pos h, if_pos h, if_neg (by omega)]
  · rw [if_neg h, if_neg h]

theorem isPySpace_iff_toNat (c : Char) :
    isPySpace c = true ↔
      (c.toNat = 32 ∨ c.toNat = 9 ∨ c.toNat = 10 ∨ c.toNat = 13 ∨
        c.toNat = 11 ∨ c.toNat = 12) := by
  simp only [isPySpace, Bool.or_eq_true, decide_eq_true_eq]
  tauto

theorem isPySpace_normChar (c : Char) (h : isPySpace c = false) :
    isPySpace (normChar c) = false := by
  rw [Bool.eq_false_iff] at h ⊢
  rw [Ne, isPySpace_iff_toNat] at h ⊢
  rw [normChar_toNat]
  split_ifs with h1 h2 <;> omega

theorem normChar_normChar (c : Char) : normChar (normChar c) = normChar c := by
  apply char_eq_of_toNat_eq
  rw [normChar_toNat (normChar c), normChar_toNat c]
  split_ifs <;> omega

/-! Facts about pyStrip. -/

theorem dropWhile_eq_self_of_head (p : Char → Bool) (l : List Char)
    (h : ∀ c, l.head? = some c → p c = false) : l.dropWhile p = l := by
  cases l with
  | nil => rfl
  | cons a t =>
      have ha := h a rfl
      simp [List.dropWhile, ha]

theorem head_dropWhile_false (p : Char → Bool) (l : List Char) :
    ∀ c, (l.dropWhile p).head? = some c → p c = false := by
  induction l with
  | nil => intro c hc; cases hc
  | cons a t ih =>
      intro c hc
      by_cases ha : p a = true
      · rw [List.dropWhile_cons_of_pos ha] at hc
        exact ih c hc
      · rw [List.dropWhile_cons_of_neg ha] at hc
        cases hc
        exact Bool.eq_false_iff.mpr ha

theorem getLast_pyStrip_false (l : List Char) :
    ∀ c, (pyStrip l).getLast? = some c → isPySpace c = false := by
  intro c hc
  unfold pyStrip at hc
  rw [List.getLast?_reverse] at hc
  exact head_dropWhile_false isPySpace _ c hc

theorem head_pyStrip_false (l : List Char) :
    ∀ c, (pyStrip l).head? = some c → isPySpace c = false := by
  intro c hc
  unfold pyStrip at hc
  rw [List.head?_reverse] at hc
  obtain ⟨pre, hpre⟩ := List.dropWhile_suffix
    (l := (l.dropWhile isPySpace).reverse) isPySpace
  have hne : (l.dropWhile isPySpace).reverse.dropWhile isPySpace ≠ [] := by
    intro hnil
    rw [hnil] at hc
    cases hc
  have h1 : ((l.dropWhile isPySpace).reverse).getLast? = some c := by
    rw [← hpre, List.getLast?_append_of_ne_nil pre hne]
    exact hc
  rw [List.getLast?_reverse] at h1
  exact head_dropWhile_false isPySpace l c h1

theorem pyStrip_eq_self (l : List Char)
    (h1 : ∀ c, l.head? = some c → isPySpace c = false)
    (h2 : ∀ c, l.getLast? = some c → isPySpace c = false) :
    pyStrip l = l := by
  unfold pyStrip
  rw [dropWhile_eq_self_of_head isPySpace l h1]
  rw [dropWhile_eq_self_of_head isPySpace l.reverse
    (by intro c hc; rw [List.head?_reverse] at hc; exact h2 c hc)]
  exact List.reverse_reverse l

theorem pyStrip_map_normChar (l : List Char) :
    pyStrip ((pyStrip l).map normChar) = (pyStrip l).map normChar := by
  apply pyStrip_eq_self
  · intro c hc
    rw [List.head?_map] at hc
    cases h0 : (pyStrip l).head? with
    | none => rw [h0] at hc; cases hc
    | some c0 =>
        rw [h0] at hc
        cases hc
        exact isPySpace_normChar c0 (head_pyStrip_false l c0 h0)
  · intro c hc
    rw [List.getLast?_map] at hc
    cases h0 : (pyStrip l).getLast? with
    | none => rw [h0] at hc; cases hc
    | some c0 =>
        rw [h0] at hc
        cases hc
        exact isPySpace_normChar c0 (getLast_pyStrip_false l c0 h0)

theorem normalizeColumn_idem (s : String) :
    normalizeColumn (normalizeColumn s) = normalizeColumn s := by
  show String.mk ((pyStrip ((pyStrip s.data).map normChar)).map normChar)
      = String.mk ((pyStrip s.data).map normChar)
  rw [pyStrip_map_normChar, List.map_map]
  congr 1
  apply List.map_congr_left
  intro a _
  exact normChar_normChar a

/-! Association-list dictionary facts. -/

theorem lookupD_bumpKey [DecidableEq K] [AddCommMonoid V]
    (d : List (K × V)) (k0 : K) (v : V) (k : K) :
    lookupD (bumpKey d k0 v) k = lookupD d k + (if k = k0 then v else 0) := by
  induction d with
  | nil =>
      by_cases h : k = k0 <;> simp [bumpKey, lookupD, h]
  | cons p t ih =>
      by_cases h0 : k0 = p.1
      · subst h0
        rw [show bumpKey (p :: t) p.1 v = (p.1, p.2 + v) :: t by
          simp [bumpKey]]
        by_cases hk : k = p.1 <;> simp [lookupD, hk]
      · rw [show bumpKey (p :: t) k0 v = p :: bumpKey t k0 v by
          simp [bumpKey, h0]]
        by_cases hk : k = p.1
        · have hkk0 : ¬(k = k0) := fun he => h0 (he ▸ hk)
          have hn : ¬(p.1 = k0) := fun he => h0 he.symm
          simp [lookupD, hk, hkk0, hn]
        · simp [lookupD, hk, ih]

theorem sumVals_cons [DecidableEq K] [AddCommMonoid V]
    (k : K) (p : K × V) (t : List (K × V)) :
    sumVals k (p :: t) = (if k = p.1 then p.2 else 0) + sumVals k t := by
  by_cases h : k = p.1
  · subst h
    simp [sumVals, List.filter_cons]
  · have hn : ¬(p.1 = k) := fun he => h he.symm
    simp [sumVals, List.filter_cons, h, hn]

theorem sumVals_eq_zero_of_not_mem [DecidableEq K] [AddCommMonoid V]
    (k : K) (g : List (K × V)) (h : k ∉ g.map Prod.fst) : sumVals k g = 0 := by
  unfold sumVals
  rw [List.filter_eq_nil_iff.mpr]
  · rfl
  · intro p hp hk
    exact h (List.mem_map.mpr ⟨p, hp, by simpa using hk⟩)

theorem lookupD_foldl_bumpKey [DecidableEq K] [AddCommMonoid V]
    (g : List (K × V)) (d : List (K × V)) (k : K) :
    lookupD (g.foldl (fun acc p => bumpKey acc p.1 p.2) d) k
      = lookupD d k + sumVals k g := by
  induction g generalizing d with
  | nil => simp [sumVals]
  | cons p t ih =>
      rw [List.foldl_cons, ih, lookupD_bumpKey, sumVals_cons, add_assoc]

theorem mem_keys_bumpKey [DecidableEq K] [AddCommMonoid V]
    (d : List (K × V)) (k0 : K) (v : V) (k : K) :
    k ∈ (bumpKey d k0 v).map Prod.fst ↔ k ∈ d.map Prod.fst ∨ k = k0 := by
  induction d with
  | nil => simp [bumpKey]
  | cons p t ih =>
      by_cases h0 : k0 = p.1
      · subst h0
        rw [show bumpKey (p :: t) p.1 v = (p.1, p.2 + v) :: t by
          simp [bumpKey]]
        simp only [List.map_cons, List.mem_cons]
        tauto
      · rw [show bumpKey (p :: t) k0 v = p :: bumpKey t k0 v by
          simp [bumpKey, h0]]
        simp only [List.map_cons, List.mem_cons, ih]
        tauto

theorem mem_keys_foldl_bumpKey [DecidableEq K] [AddCommMonoid V]
    (g : List (K × V)) (d : List (K × V)) (k : K) :
    k ∈ (g.foldl (fun acc p => bumpKey acc p.1 p.2) d).map Prod.fst
      ↔ k ∈ d.map Prod.fst ∨ k ∈ g.map Prod.fst := by
  induction g generalizing d with
  | nil => simp
  | cons p t ih =>
      rw [List.foldl_cons, ih, mem_keys_bumpKey]
      simp only [List.map_cons, List.mem_cons]
      tauto

/-! Facts about groupSums. -/

theorem groupSums_keys [DecidableEq K] (le : K → K → Prop) [DecidableRel le]
    [AddCommMonoid V] (keyf : R → K) (valf : R → V) (rows : List R) :
    (groupSums le keyf valf rows).map Prod.fst
      = List.insertionSort le ((rows.map keyf).dedup) := by
  unfold groupSums
  rw [List.map_map]
  exact List.map_id _

theorem groupSums_keys_nodup [DecidableEq K] (le : K → K → Prop)
    [DecidableRel le] [AddCommMonoid V] (keyf : R → K) (valf : R → V)
    (rows : List R) : ((groupSums le keyf valf rows).map Prod.fst).Nodup := by
  rw [groupSums_keys]
  exact ((List.perm_insertionSort le _).nodup_iff).mpr (List.nodup_dedup _)

theorem mem_groupSums_keys [DecidableEq K] (le : K → K → Prop)
    [DecidableRel le] [AddCommMonoid V] (keyf : R → K) (valf : R → V)
    (rows : List R) (k : K) :
    k ∈ (groupSums le keyf valf rows).map Prod.fst ↔ k ∈ rows.map keyf := by
  rw [groupSums_keys]
  rw [(List.perm_insertionSort le _).mem_iff]
  exact List.mem_dedup

theorem sumVals_map_key [DecidableEq K] [AddCommMonoid V]
    (keys : List K) (s : K → V) (h : keys.Nodup) (k : K) :
    sumVals k (keys.map (fun k0 => (k0, s k0)))
      = if k ∈ keys then s k else 0 := by
  induction keys with
  | nil => simp [sumVals]
  | cons a t ih =>
      obtain ⟨ha, ht⟩ := List.nodup_cons.mp h
      rw [List.map_cons, sumVals_cons]
      by_cases hk : k = a
      · subst hk
        rw [if_pos rfl, ih ht, if_neg ha, if_pos (List.mem_cons_self k t)]
        simp
      · rw [if_neg hk, ih ht, zero_add]
        by_cases hm : k ∈ t
        · rw [if_pos hm, if_pos (List.mem_cons_of_mem a hm)]
        · rw [if_neg hm, if_neg (by simp [List.mem_cons, hk, hm])]

theorem rowSumBy_eq_zero_of_not_mem [DecidableEq K] [AddCommMonoid V]
    (keyf : R → K) (valf : R → V) (k : K) (rows : List R)
    (h : k ∉ rows.map keyf) : rowSumBy keyf valf k rows = 0 := by
  unfold rowSumBy
  rw [List.filter_eq_nil_iff.mpr]
  · rfl
  · intro r hr hk
    exact h (List.mem_map.mpr ⟨r, hr, by simpa using hk⟩)

theorem sumVals_groupSums [DecidableEq K] (le : K → K → Prop)
    [DecidableRel le] [AddCommMonoid V] (keyf : R → K) (valf : R → V)
    (rows : List R) (k : K) :
    sumVals k (groupSums le keyf valf rows) = rowSumBy keyf valf k rows := by
  unfold groupSums
  rw [sumVals_map_key _ _ (by
    have := groupSums_keys_nodup le keyf valf rows
    rw [groupSums_keys] at this
    exact this)]
  by_cases h : k ∈ List.insertionSort le ((rows.map keyf).dedup)
  · rw [if_pos h]
    rfl
  · rw [if_neg h]
    have hk : k ∉ rows.map keyf := by
      rw [(List.perm_insertionSort le _).mem_iff, List.mem_dedup] at h
      exact h
    exact (rowSumBy_eq_zero_of_not_mem keyf valf k rows hk).symm

theorem lookupD_updateSalesTotals [DecidableEq K] [AddCommMonoid V]
    (le : K → K → Prop) [DecidableRel le]
    (keyf : SalesRow → K) (valf : SalesRow → V)
    (rows : List SalesRow) (d : List (K × V)) (k : K) :
    lookupD (updateSalesTotals le keyf valf rows d) k
      = lookupD d k + rowSumBy keyf valf k rows := by
  unfold updateSalesTotals
  rw [lookupD_foldl_bumpKey, sumVals_groupSums]

theorem mem_keys_updateSalesTotals [DecidableEq K] [AddCommMonoid V]
    (le : K → K → Prop) [DecidableRel le]
    (keyf : SalesRow → K) (valf : SalesRow → V)
    (rows : List SalesRow) (d : List (K × V)) (k : K) :
    k ∈ (updateSalesTotals le keyf valf rows d).map Prod.fst
      ↔ k ∈ d.map Prod.fst ∨ k ∈ rows.map keyf := by
  unfold updateSalesTotals
  rw [mem_keys_foldl_bumpKey, mem_groupSums_keys]

/-! Whole-run facts for the four dimension dicts. -/

theorem rowSumBy_append [DecidableEq K] [AddCommMonoid V]
    (keyf : R → K) (valf : R → V) (k : K) (l1 l2 : List R) :
    rowSumBy keyf valf k (l1 ++ l2)
      = rowSumBy keyf valf k l1 + rowSumBy keyf valf k l2 := by
  simp [rowSumBy, List.filter_append]

theorem rowSumBy_perm [DecidableEq K] [AddCommMonoid V]
    (keyf : R → K) (valf : R → V) (k : K) (l1 l2 : List R)
    (h : l1.Perm l2) :
    rowSumBy keyf valf k l1 = rowSumBy keyf valf k l2 :=
  ((h.filter _).map _).sum_eq

theorem mem_map_perm_iff (keyf : R → K) (l1 l2 : List R) (h : l1.Perm l2)
    (k : K) : k ∈ l1.map keyf ↔ k ∈ l2.map keyf :=
  (h.map keyf).mem_iff

theorem product_sales_foldl (bs : List (List SalesRow)) (st : SalesState)
    (k : String) :
    lookupD ((bs.foldl processChunk st).product_sales) k
      = lookupD st.product_sales k
        + rowSumBy (fun r => r.item_type) (fun r => r.units_sold) k bs.flatten := by
  induction bs generalizing st with
  | nil => simp [rowSumBy]
  | cons b t ih =>
      rw [List.foldl_cons, ih, List.flatten_cons, rowSumBy_append,
        show (processChunk st b).product_sales
          = updateSalesTotals strLe (fun r => r.item_type)
              (fun r => r.units_sold) b st.product_sales from rfl,
        lookupD_updateSalesTotals, add_assoc]

theorem sales_channel_foldl (bs : List (List SalesRow)) (st : SalesState)
    (k : String) :
    lookupD ((bs.foldl processChunk st).sales_channel_sales) k
      = lookupD st.sales_channel_sales k
        + rowSumBy (fun r => r.sales_channel) (fun r => r.units_sold) k
            bs.flatten := by
  induction bs generalizing st with
  | nil => simp [rowSumBy]
  | cons b t ih =>
      rw [List.foldl_cons, ih, List.flatten_cons, rowSumBy_append,
        show (processChunk st b).sales_channel_sales
          = updateSalesTotals strLe (fun r => r.sales_channel)
              (fun r => r.units_sold) b st.sales_channel_sales from rfl,
        lookupD_updateSalesTotals, add_assoc]

theorem country_sales_foldl (bs : List (List SalesRow)) (st : SalesState)
    (k : String) :
    lookupD ((bs.foldl processChunk st).country_sales) k
      = lookupD st.country_sales k
        + rowSumBy (fun r => r.country) (fun r => r.total_revenue) k
            bs.flatten := by
  induction bs generalizing st with
  | nil => simp [rowSumBy]
  | cons b t ih =>
      rw [List.foldl_cons, ih, List.flatten_cons, rowSumBy_append,
        show (processChunk st b).country_sales
          = updateSalesTotals strLe (fun r => r.country)
              (fun r => r.total_revenue) b st.country_sales from rfl,
        lookupD_updateSalesTotals, add_assoc]

theorem region_sales_foldl (bs : List (List SalesRow)) (st : SalesState)
    (k : String) :
    lookupD ((bs.foldl processChunk st).region_sales) k
      = lookupD st.region_sales k
        + rowSumBy (fun r => r.region) (fun r => r.total_revenue) k
            bs.flatten := by
  induction bs generalizing st with
  | nil => simp [rowSumBy]
  | cons b t ih =>
      rw [List.foldl_cons, ih, List.flatten_cons, rowSumBy_append,
        show (processChunk st b).region_sales
          = updateSalesTotals strLe (fun r => r.region)
              (fun r => r.total_revenue) b st.region_sales from rfl,
        lookupD_updateSalesTotals, add_assoc]

theorem mem_product_sales_foldl (bs : List (List SalesRow)) (st : SalesState)
    (k : String) :
    k ∈ ((bs.foldl processChunk st).product_sales).map Prod.fst
      ↔ k ∈ st.product_sales.map Prod.fst
        ∨ k ∈ bs.flatten.map (fun r => r.item_type) := by
  induction bs generalizing st with
  | nil => simp
  | cons b t ih =>
      rw [List.foldl_cons, ih, List.flatten_cons, List.map_append,
        show (processChunk st b).product_sales
          = updateSalesTotals strLe (fun r => r.item_type)
              (fun r => r.units_sold) b st.product_sales from rfl,
        mem_keys_updateSalesTotals]
      simp only [List.mem_append]
      tauto

theorem mem_sales_channel_foldl (bs : List (List SalesRow)) (st : SalesState)
    (k : String) :
    k ∈ ((bs.foldl processChunk st).sales_channel_sales).map Prod.fst
      ↔ k ∈ st.sales_channel_sales.map Prod.fst
        ∨ k ∈ bs.flatten.map (fun r => r.sales_channel) := by
  induction bs generalizing st with
  | nil => simp
  | cons b t ih =>
      rw [List.foldl_cons, ih, List.flatten_cons, List.map_append,
        show (processChunk st b).sales_channel_sales
          = updateSalesTotals strLe (fun r => r.sales_channel)
              (fun r => r.units_sold) b st.sales_channel_sales from rfl,
        mem_keys_updateSalesTotals]
      simp only [List.mem_append]
      tauto

theorem mem_country_sales_foldl (bs : List (List SalesRow)) (st : SalesState)
    (k : String) :
    k ∈ ((bs.foldl processChunk st).country_sales).map Prod.fst
      ↔ k ∈ st.country_sales.map Prod.fst
        ∨ k ∈ bs.flatten.map (fun r => r.country) := by
  induction bs generalizing st with
  | nil => simp
  | cons b t ih =>
      rw [List.foldl_cons, ih, List.flatten_cons, List.map_append,
        show (processChunk st b).country_sales
          = updateSalesTotals strLe (fun r => r.country)
              (fun r => r.total_revenue) b st.country_sales from rfl,
        mem_keys_updateSalesTotals]
      simp only [List.mem_append]
      tauto

theorem mem_region_sales_foldl (bs : List (List SalesRow)) (st : SalesState)
    (k : String) :
    k ∈ ((bs.foldl processChunk st).region_sales).map Prod.fst
      ↔ k ∈ st.region_sales.map Prod.fst
        ∨ k ∈ bs.flatten.map (fun r => r.region) := by
  induction bs generalizing st with
  | nil => simp
  | cons b t ih =>
      rw [List.foldl_cons, ih, List.flatten_cons, List.map_append,
        show (processChunk st b).region_sales
          = updateSalesTotals strLe (fun r => r.region)
              (fun r => r.total_revenue) b st.region_sales from rfl,
        mem_keys_updateSalesTotals]
      simp only [List.mem_append]
      tauto

/-! Monthly accumulator facts. -/

theorem lookupD_bumpMonthly (d : List (PMKey × (ℚ × Nat))) (k0 : PMKey)
    (v : ℚ) (k : PMKey) :
    lookupD (bumpMonthly d k0 v) k
      = if k = k0 then ((lookupD d k).1 + v, (lookupD d k).2 + 1)
        else lookupD d k := by
  induction d with
  | nil =>
      by_cases h : k = k0 <;>
        simp [bumpMonthly, lookupD, h, Prod.ext_iff]
  | cons p t ih =>
      by_cases h0 : k0 = p.1
      · subst h0
        rw [show bumpMonthly (p :: t) p.1 v
            = (p.1, (p.2.1 + v, p.2.2 + 1)) :: t by simp [bumpMonthly]]
        by_cases hk : k = p.1 <;> simp [lookupD, hk]
      · rw [show bumpMonthly (p :: t) k0 v = p :: bumpMonthly t k0 v by
          simp [bumpMonthly, h0]]
        by_cases hk : k = p.1
        · have hkk0 : ¬(k = k0) := fun he => h0 (he ▸ hk)
          have hn : ¬(p.1 = k0) := fun he => h0 he.symm
          simp [lookupD, hk, hkk0, hn]
        · simp [lookupD, hk, ih]

theorem mem_keys_bumpMonthly (d : List (PMKey × (ℚ × Nat))) (k0 : PMKey)
    (v : ℚ) (k : PMKey) :
    k ∈ (bumpMonthly d k0 v).map Prod.fst
      ↔ k ∈ d.map Prod.fst ∨ k = k0 := by
  induction d with
  | nil => simp [bumpMonthly]
  | cons p t ih =>
      by_cases h0 : k0 = p.1
      · subst h0
        rw [show bumpMonthly (p :: t) p.1 v
            = (p.1, (p.2.1 + v, p.2.2 + 1)) :: t by simp [bumpMonthly]]
        simp only [List.map_cons, List.mem_cons]
        tauto
      · rw [show bumpMonthly (p :: t) k0 v = p :: bumpMonthly t k0 v by
          simp [bumpMonthly, h0]]
        simp only [List.map_cons, List.mem_cons, ih]
        tauto

theorem lookupD_foldl_bumpMonthly (g : List (PMKey × ℚ))
    (hnd : (g.map Prod.fst).Nodup) (d : List (PMKey × (ℚ × Nat)))
    (k : PMKey) :
    lookupD (g.foldl (fun acc p => bumpMonthly acc p.1 p.2) d) k
      = ((lookupD d k).1 + sumVals k g,
         (lookupD d k).2 + (if k ∈ g.map Prod.fst then 1 else 0)) := by
  induction g generalizing d with
  | nil => simp [sumVals]
  | cons p t ih =>
      rw [List.map_cons] at hnd
      obtain ⟨hp, ht⟩ := List.nodup_cons.mp hnd
      rw [List.foldl_cons, ih ht, lookupD_bumpMonthly, sumVals_cons]
      by_cases hk : k = p.1
      · subst hk
        rw [if_pos rfl, if_pos rfl,
          sumVals_eq_zero_of_not_mem p.1 t hp,
          if_neg hp, if_pos (show p.1 ∈ (p :: t).map Prod.fst by simp)]
        simp [add_assoc]
      · rw [if_neg hk, if_neg hk, zero_add]
        have : (k ∈ (p :: t).map Prod.fst) ↔ k ∈ t.map Prod.fst := by
          simp [List.map_cons, List.mem_cons, hk]
        by_cases hm : k ∈ t.map Prod.fst
        · rw [if_pos hm, if_pos (this.mpr hm)]
        · rw [if_neg hm, if_neg (fun hmm => hm (this.mp hmm))]

theorem monthly_sales_processChunk (st : SalesState) (rows : List SalesRow) :
    (processChunk st rows).monthly_sales
      = (monthlyGroupOf rows).foldl (fun d p => bumpMonthly d p.1 p.2)
          st.monthly_sales := rfl

theorem monthlyGroupOf_keys_nodup (rows : List SalesRow) :
    ((monthlyGroupOf rows).map Prod.fst).Nodup :=
  groupSums_keys_nodup pmLe _ _ _

theorem lookupD_monthly_processChunk (st : SalesState)
    (rows : List SalesRow) (k : PMKey) :
    lookupD ((processChunk st rows).monthly_sales) k
      = ((lookupD st.monthly_sales k).1 + sumVals k (monthlyGroupOf rows),
         (lookupD st.monthly_sales k).2
           + (if k ∈ (monthlyGroupOf rows).map Prod.fst then 1 else 0)) := by
  rw [monthly_sales_processChunk]
  exact lookupD_foldl_bumpMonthly _ (monthlyGroupOf_keys_nodup rows) _ k

theorem count_ge_one_bumpMonthly (d : List (PMKey × (ℚ × Nat)))
    (k0 : PMKey) (v : ℚ)
    (h : ∀ p ∈ d, 1 ≤ p.2.2) :
    ∀ p ∈ bumpMonthly d k0 v, 1 ≤ p.2.2 := by
  induction d with
  | nil =>
      intro p hp
      simp only [bumpMonthly, List.mem_singleton] at hp
      subst hp
      simp
  | cons q t ih =>
      intro p hp
      by_cases h0 : k0 = q.1
      · subst h0
        rw [show bumpMonthly (q :: t) q.1 v
            = (q.1, (q.2.1 + v, q.2.2 + 1)) :: t by simp [bumpMonthly]] at hp
        rcases List.mem_cons.mp hp with he | ht
        · subst he; simp
        · exact h p (List.mem_cons_of_mem q ht)
      · rw [show bumpMonthly (q :: t) k0 v = q :: bumpMonthly t k0 v by
          simp [bumpMonthly, h0]] at hp
        rcases List.mem_cons.mp hp with he | ht
        · rw [he]; exact h q (List.mem_cons_self q t)
        · exact ih (fun p2 hp2 => h p2 (List.mem_cons_of_mem q hp2)) p ht

theorem count_ge_one_foldl (g : List (PMKey × ℚ))
    (d : List (PMKey × (ℚ × Nat))) (h : ∀ p ∈ d, 1 ≤ p.2.2) :
    ∀ p ∈ g.foldl (fun acc q => bumpMonthly acc q.1 q.2) d, 1 ≤ p.2.2 := by
  induction g generalizing d with
  | nil => exact h
  | cons q t ih =>
      rw [List.foldl_cons]
      exact ih _ (count_ge_one_bumpMonthly d q.1 q.2 h)

theorem count_ge_one_processChunk (st : SalesState) (rows : List SalesRow)
    (h : ∀ p ∈ st.monthly_sales, 1 ≤ p.2.2) :
    ∀ p ∈ (processChunk st rows).monthly_sales, 1 ≤ p.2.2 := by
  rw [monthly_sales_processChunk]
  exact count_ge_one_foldl _ _ h

theorem keys_isSome_bumpMonthly (d : List (PMKey × (ℚ × Nat)))
    (k0 : PMKey) (v : ℚ) (hk0 : k0.2.isSome = true)
    (h : ∀ p ∈ d, (p.1.2).isSome = true) :
    ∀ p ∈ bumpMonthly d k0 v, (p.1.2).isSome = true := by
  intro p hp
  have := (mem_keys_bumpMonthly d k0 v p.1).mp
    (List.mem_map.mpr ⟨p, hp, rfl⟩)
  rcases this with hmem | hk
  · obtain ⟨q, hq, hqf⟩ := List.mem_map.mp hmem
    rw [← hqf]
    exact h q hq
  · rw [hk]
    exact hk0

theorem mem_filter_isSome_key (rows : List SalesRow) (k : PMKey)
    (h : k ∈ (monthlyGroupOf rows).map Prod.fst) : k.2.isSome = true := by
  rw [monthlyGroupOf, mem_groupSums_keys] at h
  obtain ⟨r, hr, hk⟩ := List.mem_map.mp h
  have hrs := (List.mem_filter.mp hr).2
  rw [← hk]
  simpa using hrs

theorem keys_isSome_foldl (g : List (PMKey × ℚ))
    (hg : ∀ q ∈ g, (q.1.2).isSome = true)
    (d : List (PMKey × (ℚ × Nat)))
    (h : ∀ p ∈ d, (p.1.2).isSome = true) :
    ∀ p ∈ g.foldl (fun acc q => bumpMonthly acc q.1 q.2) d,
      (p.1.2).isSome = true := by
  induction g generalizing d with
  | nil => exact h
  | cons q t ih =>
      rw [List.foldl_cons]
      exact ih (fun q2 hq2 => hg q2 (List.mem_cons_of_mem q hq2)) _
        (keys_isSome_bumpMonthly d q.1 q.2
          (hg q (List.mem_cons_self q t)) h)

theorem keys_isSome_processChunk (st : SalesState) (rows : List SalesRow)
    (h : ∀ p ∈ st.monthly_sales, (p.1.2).isSome = true) :
    ∀ p ∈ (processChunk st rows).monthly_sales, (p.1.2).isSome = true := by
  rw [monthly_sales_processChunk]
  exact keys_isSome_foldl (monthlyGroupOf rows)
    (fun q hq => mem_filter_isSome_key rows q.1
      (List.mem_map.mpr ⟨q, hq, rfl⟩))
    st.monthly_sales h

/-! First-maximum characterization of the reporter's max. -/

theorem maxKeyGo_first {K V : Type} [LinearOrder V] :
    ∀ (t : List (K × V)) (k : K) (v : V),
    ∃ pre k0 v0 suf,
      (k, v) :: t = pre ++ (k0, v0) :: suf ∧ maxKeyGo k v t = k0 ∧
      (∀ p ∈ pre, p.2 < v0) ∧ (∀ p ∈ suf, p.2 ≤ v0) := by
  intro t
  induction t with
  | nil =>
      intro k v
      exact ⟨[], k, v, [], rfl, rfl, by simp, by simp⟩
  | cons q t ih =>
      intro k v
      by_cases h : v < q.2
      · obtain ⟨pre, k0, v0, suf, heq, hgo, hpre, hsuf⟩ := ih q.1 q.2
        have hq2v0 : q.2 ≤ v0 := by
          cases pre with
          | nil =>
              rw [List.nil_append] at heq
              injection heq with h1 h2
              injection h1 with hk0 hv0
              exact le_of_eq hv0
          | cons p0 pre2 =>
              rw [List.cons_append] at heq
              injection heq with h1 h2
              have := hpre p0 (List.mem_cons_self p0 pre2)
              rw [← h1] at this
              exact le_of_lt this
        refine ⟨(k, v) :: pre, k0, v0, suf, ?_, ?_, ?_, hsuf⟩
        · rw [List.cons_append]
          congr 1
        · rw [show maxKeyGo k v (q :: t) = maxKeyGo q.1 q.2 t by
            simp [maxKeyGo, h]]
          exact hgo
        · intro p hp
          rcases List.mem_cons.mp hp with he | hm
          · rw [he]
            exact lt_of_lt_of_le h hq2v0
          · exact hpre p hm
      · obtain ⟨pre, k0, v0, suf, heq, hgo, hpre, hsuf⟩ := ih k v
        have hq2 : q.2 ≤ v := le_of_not_lt h
        cases pre with
        | nil =>
            rw [List.nil_append] at heq
            injection heq with h1 h2
            injection h1 with hk0 hv0
            refine ⟨[], k, v, q :: t, rfl, ?_, by simp, ?_⟩
            · rw [show maxKeyGo k v (q :: t) = maxKeyGo k v t by
                simp [maxKeyGo, h]]
              rw [hgo, ← hk0]
            · intro p hp
              rcases List.mem_cons.mp hp with he | hm
              · rw [he]
                exact hq2
              · have := hsuf p (h2 ▸ hm)
                rw [hv0]
                exact this
        | cons p0 pre2 =>
            rw [List.cons_append] at heq
            injection heq with h1 h2
            refine ⟨(k, v) :: q :: pre2, k0, v0, suf, ?_, ?_, ?_, hsuf⟩
            · rw [List.cons_append, List.cons_append, ← h2]
            · rw [show maxKeyGo k v (q :: t) = maxKeyGo k v t by
                simp [maxKeyGo, h]]
              exact hgo
            · intro p hp
              have hv_lt : v < v0 := by
                have := hpre p0 (List.mem_cons_self p0 pre2)
                rw [← h1] at this
                exact this
              rcases List.mem_cons.mp hp with he | hm
              · rw [he]
                exact hv_lt
              · rcases List.mem_cons.mp hm with he2 | hm2
                · rw [he2]
                  exact lt_of_le_of_lt hq2 hv_lt
                · exact hpre p (List.mem_cons_of_mem p0 hm2)

/-! Error-shape facts for the checked pipeline. -/

theorem processChunkChecked_error_shape (st : SalesState) (c : RawChunk)
    (e : Err) (h : processChunkChecked st c = Except.error e) :
    ∃ col, e = Err.missingColumn col := by
  unfold processChunkChecked at h
  cases hfind : columnUseOrder.find?
      (fun col => decide (col ∉ c.header.map normalizeColumn)) with
  | some col =>
      rw [hfind] at h
      have h2 : (Except.error (Err.missingColumn col) : Except Err SalesState)
          = Except.error e := h
      injection h2 with he
      exact ⟨col, he.symm⟩
  | none =>
      rw [hfind] at h
      have h2 : (Except.ok (processChunk st c.rows) : Except Err SalesState)
          = Except.error e := h
      cases h2

theorem processAllChecked_error_shape :
    ∀ (cs : List RawChunk) (st : SalesState) (e : Err),
      processAllChecked st cs = Except.error e →
      ∃ col, e = Err.missingColumn col := by
  intro cs
  induction cs with
  | nil =>
      intro st e h
      have h2 : (Except.ok st : Except Err SalesState) = Except.error e := h
      cases h2
  | cons c t ih =>
      intro st e h
      cases hc : processChunkChecked st c with
      | error e0 =>
          have h2 : (processChunkChecked st c >>= fun s =>
              List.foldlM processChunkChecked s t) = Except.error e := h
          rw [hc] at h2
          have h3 : (Except.error e0 : Except Err SalesState)
              = Except.error e := h2
          injection h3 with he
          obtain ⟨col, hcol⟩ := processChunkChecked_error_shape st c e0 hc
          exact ⟨col, he ▸ hcol⟩
      | ok st1 =>
          have h2 : (processChunkChecked st c >>= fun s =>
              List.foldlM processChunkChecked s t) = Except.error e := h
          rw [hc] at h2
          have h3 : List.foldlM processChunkChecked st1 t
              = Except.error e := h2
          exact ih st1 e h3

theorem processChunkChecked_missing (st : SalesState) (c : RawChunk)
    (r : String) (hr : r ∈ requiredColumns)
    (hmiss : r ∉ c.header.map normalizeColumn) :
    ∃ col, processChunkChecked st c
        = Except.error (Err.missingColumn col) := by
  have hru : r ∈ columnUseOrder := by
    have hsub : ∀ x ∈ requiredColumns, x ∈ columnUseOrder := by decide
    exact hsub r hr
  cases hfind : columnUseOrder.find?
      (fun col => decide (col ∉ c.header.map normalizeColumn)) with
  | none =>
      exfalso
      have hnone := List.find?_eq_none.mp hfind r hru
      simp only [decide_eq_true_eq] at hnone
      exact hnone hmiss
  | some col =>
      refine ⟨col, ?_⟩
      unfold processChunkChecked
      rw [hfind]

/-! Run-level invariants of the monthly accumulator. -/

theorem count_ge_one_run (bs : List (List SalesRow)) :
    ∀ p ∈ (runChunks bs).monthly_sales, 1 ≤ p.2.2 := by
  have aux : ∀ (bs2 : List (List SalesRow)) (st : SalesState),
      (∀ p ∈ st.monthly_sales, 1 ≤ p.2.2) →
      ∀ p ∈ (bs2.foldl processChunk st).monthly_sales, 1 ≤ p.2.2 := by
    intro bs2
    induction bs2 with
    | nil => intro st hst; exact hst
    | cons b t ih =>
        intro st hst
        rw [List.foldl_cons]
        exact ih _ (count_ge_one_processChunk st b hst)
  exact aux bs initState (by intro p hp; cases hp)

theorem keys_isSome_run (bs : List (List SalesRow)) :
    ∀ p ∈ (runChunks bs).monthly_sales, (p.1.2).isSome = true := by
  have aux : ∀ (bs2 : List (List SalesRow)) (st : SalesState),
      (∀ p ∈ st.monthly_sales, (p.1.2).isSome = true) →
      ∀ p ∈ (bs2.foldl processChunk st).monthly_sales,
        (p.1.2).isSome = true := by
    intro bs2
    induction bs2 with
    | nil => intro st hst; exact hst
    | cons b t ih =>
        intro st hst
        rw [List.foldl_cons]
        exact ih _ (keys_isSome_processChunk st b hst)
  exact aux bs initState (by intro p hp; cases hp)

theorem processChunkChecked_error_irrelevant (st st2 : SalesState)
    (c : RawChunk) (e : Err)
    (h : processChunkChecked st c = Except.error e) :
    processChunkChecked st2 c = Except.error e := by
  unfold processChunkChecked at h ⊢
  cases hfind : columnUseOrder.find?
      (fun col => decide (col ∉ c.header.map normalizeColumn)) with
  | some col =>
      rw [hfind] at h
      exact h
  | none =>
      rw [hfind] at h
      have h2 : (Except.ok (processChunk st c.rows) : Except Err SalesState)
          = Except.error e := h
      cases h2

/-- C1: for every (product, month) pair, a processed batch adds the
batch's per-group revenue sum to the pair's running sum and adds one to
the pair's running batch count exactly when the pair occurs in the
batch (once per batch, not once per row); consequently rows A = (P,
2021-01, 100) and B = (P, 2021-01, 300) give final average 400 when
processed as one batch and 200 when processed as two batches. -/
theorem claim1_monthly_accumulator :
    (∀ (st : SalesState) (rows : List SalesRow) (k : PMKey),
      lookupD ((processChunk st rows).monthly_sales) k
        = ((lookupD st.monthly_sales k).1 + sumVals k (monthlyGroupOf rows),
           (lookupD st.monthly_sales k).2
             + (if k ∈ (monthlyGroupOf rows).map Prod.fst then 1 else 0)))
    ∧ monthlyAvgSales (runChunks [[rowP100, rowP300]])
        = [(("P", some (2021, 1)), 400)]
    ∧ monthlyAvgSales (runChunks [[rowP100], [rowP300]])
        = [(("P", some (2021, 1)), 200)] := by
  refine ⟨lookupD_monthly_processChunk, ?_, ?_⟩
  · norm_num +decide [monthlyAvgSales, runChunks, processChunk,
      monthlyGroupOf, groupSums, bumpMonthly, monthOf, rowP100, rowP300,
      initState, List.insertionSort, List.orderedInsert, List.dedup,
      List.pwFilter, pmLe, pmLeB, monthLeB, charsLtB]
  · norm_num +decide [monthlyAvgSales, runChunks, processChunk,
      monthlyGroupOf, groupSums, bumpMonthly, monthOf, rowP100, rowP300,
      initState, List.insertionSort, List.orderedInsert, List.dedup,
      List.pwFilter, pmLe, pmLeB, monthLeB, charsLtB]

/-- C2 as stated is false on the code: the revenue dicts are merged by
float64 addition (sales_dict[key] += value on a float64 column), and
float64 addition is not associative, so different partitions of the
same rows can round differently. Concretely, three rows of one country
with revenues 0.1, 0.2 and 0.3 (as binary64) give the running country
sum 5404319552844596 times 2 to the -53 (0.6000000000000001) when
processed as one batch, but 5404319552844595 times 2 to the -53 (0.6)
when split into the batches [first row] and [second row, third row]. -/
theorem claim2_counterexample :
    lookupF (runCountryF [[("BR", fp01), ("BR", fp02), ("BR", fp03)]])
        ("BR")
      = some ⟨5404319552844596, -53⟩
    ∧ lookupF (runCountryF [[("BR", fp01)], [("BR", fp02), ("BR", fp03)]])
        ("BR")
      = some ⟨5404319552844595, -53⟩
    ∧ lookupF (runCountryF [[("BR", fp01), ("BR", fp02), ("BR", fp03)]])
        ("BR")
      ≠ lookupF (runCountryF [[("BR", fp01)], [("BR", fp02), ("BR", fp03)]])
        ("BR") := by
  exact ⟨by decide, by decide, by decide⟩

/-- C2 amended: the two units dicts, being exact integer sums, are
identical (same keys, same values) for any partition of the rows into
batches and any permutation of batch order; the two revenue dicts merge
by float64 addition, so across partitions they are identical only up to
addition-order rounding: their exact-arithmetic idealizations are
partition-invariant, though the program's float64 values may differ in
the last bits between partitions. -/
theorem claim2_amended (bs1 bs2 : List (List SalesRow))
    (h : bs1.flatten.Perm bs2.flatten) :
    ∀ k : String,
      unitsDimsAgree bs1 bs2 k ∧ revenueDimsAgreeExact bs1 bs2 k := by
  intro k
  unfold unitsDimsAgree revenueDimsAgreeExact runChunks
  refine ⟨⟨⟨?_, ?_⟩, ⟨?_, ?_⟩⟩, ⟨⟨?_, ?_⟩, ⟨?_, ?_⟩⟩⟩
  · rw [product_sales_foldl, product_sales_foldl,
      rowSumBy_perm _ _ k _ _ h]
  · rw [mem_product_sales_foldl, mem_product_sales_foldl]
    have := mem_map_perm_iff (fun r => r.item_type) _ _ h k
    tauto
  · rw [sales_channel_foldl, sales_channel_foldl,
      rowSumBy_perm _ _ k _ _ h]
  · rw [mem_sales_channel_foldl, mem_sales_channel_foldl]
    have := mem_map_perm_iff (fun r => r.sales_channel) _ _ h k
    tauto
  · rw [country_sales_foldl, country_sales_foldl,
      rowSumBy_perm _ _ k _ _ h]
  · rw [mem_country_sales_foldl, mem_country_sales_foldl]
    have := mem_map_perm_iff (fun r => r.country) _ _ h k
    tauto
  · rw [region_sales_foldl, region_sales_foldl,
      rowSumBy_perm _ _ k _ _ h]
  · rw [mem_region_sales_foldl, mem_region_sales_foldl]
    have := mem_map_perm_iff (fun r => r.region) _ _ h k
    tauto

/-- Witness for C2's amended theorem at a concrete partition pair and
key. -/
theorem claim2_witness :
    (([[rowP100, rowP300]] : List (List SalesRow)).flatten.Perm
        ([[rowP300], [rowP100]] : List (List SalesRow)).flatten)
    ∧ (unitsDimsAgree [[rowP100, rowP300]] [[rowP300], [rowP100]] ("P")
        ∧ revenueDimsAgreeExact [[rowP100, rowP300]] [[rowP300], [rowP100]]
            ("P")) :=
  ⟨by decide,
    claim2_amended [[rowP100, rowP300]] [[rowP300], [rowP100]]
      (by decide) ("P")⟩

/-- C3: the three-row end-to-end scenario processed as one batch yields
exactly the expected five aggregates (dict contents as key-value sets;
groupby emits keys in sorted order, which fixes the list order). -/
theorem claim3_end_to_end :
    (runChunks [[rowE1, rowE2, rowE3]]).product_sales
        = [("Electronics", 15), ("Furniture", 20)]
    ∧ (runChunks [[rowE1, rowE2, rowE3]]).sales_channel_sales
        = [("Online", 15), ("Retail", 20)]
    ∧ (runChunks [[rowE1, rowE2, rowE3]]).country_sales
        = [("Brazil", 150), ("USA", 500)]
    ∧ (runChunks [[rowE1, rowE2, rowE3]]).region_sales
        = [("North America", 500), ("South America", 150)]
    ∧ monthlyAvgSales (runChunks [[rowE1, rowE2, rowE3]])
        = [(("Electronics", some (2021, 1)), 150),
           (("Furniture", some (2021, 2)), 500)] := by
  refine ⟨by decide, by decide, ?_, ?_, ?_⟩
  · norm_num +decide [runChunks, processChunk, updateSalesTotals, groupSums,
      bumpKey, rowE1, rowE2, rowE3, initState, List.insertionSort,
      List.orderedInsert, List.dedup, List.pwFilter, strLe, charsLeB,
      charsLtB]
  · norm_num +decide [runChunks, processChunk, updateSalesTotals, groupSums,
      bumpKey, rowE1, rowE2, rowE3, initState, List.insertionSort,
      List.orderedInsert, List.dedup, List.pwFilter, strLe, charsLeB,
      charsLtB]
  · norm_num +decide [monthlyAvgSales, runChunks, processChunk,
      monthlyGroupOf, groupSums, bumpMonthly, monthOf, rowE1, rowE2, rowE3,
      initState, List.insertionSort, List.orderedInsert, List.dedup,
      List.pwFilter, pmLe, pmLeB, monthLeB, charsLtB]

/-- C4 as stated is false on the code: a row whose order_date was
coerced to NaT is processed without aborting, but pandas groupby drops
the NaT month key, so the row is absent from the monthly dict instead
of being counted under an unknown-month bucket. Concretely, one
null-date row updates the dimension dicts yet leaves monthly_sales
empty. -/
theorem claim4_counterexample :
    (processChunk initState [rowNullDate]).product_sales
        = [("Electronics", 10)]
    ∧ (processChunk initState [rowNullDate]).monthly_sales = [] := by
  exact ⟨by decide, by decide⟩

/-- C4 amended: a failed date parse is coerced to a null date and the
run does not abort (a chunk with the full header is always accepted),
but rows with a null month are excluded from the (product, month)
accumulator: every key ever present in monthly_sales has a real (some)
month. -/
theorem claim4_amended :
    (∀ (st : SalesState) (rows : List SalesRow),
        processChunkChecked st (RawChunk.mk fullHeader rows)
          = Except.ok (processChunk st rows))
    ∧ (∀ (bs : List (List SalesRow)) (k : PMKey) (v : ℚ × Nat),
        (k, v) ∈ (runChunks bs).monthly_sales → (k.2).isSome = true) := by
  constructor
  · intro st rows
    unfold processChunkChecked
    rw [show (RawChunk.mk fullHeader rows).header = fullHeader from rfl]
    rw [show columnUseOrder.find?
        (fun col => decide (col ∉ fullHeader.map normalizeColumn)) = none
      from by decide]
  · intro bs k v h
    exact keys_isSome_run bs (k, v) h

/-- Witness for C4's amended membership hypothesis at a concrete run. -/
theorem claim4_witness :
    ((("Electronics", some (2021, 1)), ((100 : ℚ), 1))
        ∈ (runChunks [[rowE1]]).monthly_sales)
    ∧ ((("Electronics", some (2021, 1)) : PMKey).2).isSome = true := by
  have hmem : ((("Electronics", some (2021, 1)), ((100 : ℚ), 1))
      ∈ (runChunks [[rowE1]]).monthly_sales) := by
    norm_num +decide [runChunks, processChunk, monthlyGroupOf, groupSums,
      bumpMonthly, monthOf, rowE1, initState, List.insertionSort,
      List.orderedInsert, List.dedup, List.pwFilter, pmLe, pmLeB, monthLeB,
      charsLtB]
  exact ⟨hmem, claim4_amended.2 [[rowE1]] _ _ hmem⟩

/-- C5: the sample_fraction constructor parameter is stored but never
read by the scan, so two runs over the same file rows with the same
chunk size and different sample fractions produce identical final
values of all five aggregate dicts. -/
theorem claim5_sample_fraction_inert (fp : String) (cs : Nat)
    (f1 f2 : ℚ) (rows : List SalesRow) :
    (processSalesData ⟨fp, cs, f1⟩ rows).product_sales
        = (processSalesData ⟨fp, cs, f2⟩ rows).product_sales
    ∧ (processSalesData ⟨fp, cs, f1⟩ rows).sales_channel_sales
        = (processSalesData ⟨fp, cs, f2⟩ rows).sales_channel_sales
    ∧ (processSalesData ⟨fp, cs, f1⟩ rows).country_sales
        = (processSalesData ⟨fp, cs, f2⟩ rows).country_sales
    ∧ (processSalesData ⟨fp, cs, f1⟩ rows).region_sales
        = (processSalesData ⟨fp, cs, f2⟩ rows).region_sales
    ∧ (processSalesData ⟨fp, cs, f1⟩ rows).monthly_sales
        = (processSalesData ⟨fp, cs, f2⟩ rows).monthly_sales :=
  ⟨rfl, rfl, rfl, rfl, rfl⟩

/-- C6 as stated is false on the code: the code replaces only the space
character, not every internal whitespace character; a header with an
internal tab is left unchanged by the code but the spec-worded function
turns the tab into an underscore. -/
theorem claim6_counterexample :
    normalizeColumn ("a\tb") = "a\tb"
    ∧ specNormalizeColumn ("a\tb") = "a_b"
    ∧ normalizeColumn ("a\tb") ≠ specNormalizeColumn ("a\tb") := by
  exact ⟨by decide, by decide, by decide⟩

/-- C6 amended: normalization deterministically strips leading and
trailing whitespace, replaces internal SPACE characters with
underscores, and lowercases; Order Date normalizes to order_date, and
normalization is idempotent. -/
theorem claim6_amended :
    normalizeColumn ("Order Date") = "order_date"
    ∧ ∀ s : String, normalizeColumn (normalizeColumn s) = normalizeColumn s :=
  ⟨by decide, normalizeColumn_idem⟩

/-- C7: the reporter's max over a dimension dict returns the key of the
first entry (in insertion order) attaining the maximal value: every
earlier entry is strictly smaller and every later entry is no larger,
so among tied maximal keys the first-inserted one is always selected;
being a pure function of the dict, repeated runs return the same key. -/
theorem claim7_first_max_tie_break (V : Type) [LinearOrder V]
    (d : List (String × V)) (h : d ≠ []) :
    ∃ pre k v suf,
      d = pre ++ (k, v) :: suf ∧ maxKeyFirst d = some k ∧
      (∀ p ∈ pre, p.2 < v) ∧ (∀ p ∈ suf, p.2 ≤ v) := by
  cases d with
  | nil => exact absurd rfl h
  | cons p t =>
      obtain ⟨pre, k0, v0, suf, heq, hgo, hpre, hsuf⟩ :=
        maxKeyGo_first t p.1 p.2
      refine ⟨pre, k0, v0, suf, ?_, ?_, hpre, hsuf⟩
      · rw [← heq]
      · rw [show maxKeyFirst (p :: t) = some (maxKeyGo p.1 p.2 t) from rfl,
          hgo]

/-- Witness for C7 on a two-entry dict with tied maximal values. -/
theorem claim7_witness :
    (([("a", (5 : ℤ)), ("b", 5)] : List (String × ℤ)) ≠ [])
    ∧ ∃ pre k v suf,
        ([("a", (5 : ℤ)), ("b", 5)] : List (String × ℤ))
            = pre ++ (k, v) :: suf
        ∧ maxKeyFirst ([("a", (5 : ℤ)), ("b", 5)] : List (String × ℤ))
            = some k
        ∧ (∀ p ∈ pre, p.2 < v) ∧ (∀ p ∈ suf, p.2 ≤ v) :=
  ⟨by decide, claim7_first_max_tie_break ℤ [("a", (5 : ℤ)), ("b", 5)]
    (by decide)⟩

/-- C8: a scan never raises the empty-aggregate error (every scan error
is a missing-column error), a scan over an empty source (zero chunks)
completes, and the reporter raises the empty-aggregate error on the
empty aggregate state it produces. -/
theorem claim8_empty_aggregate_report_time :
    (∀ (st : SalesState) (cs : List RawChunk) (e : Err),
        processAllChecked st cs = Except.error e →
        ∃ col, e = Err.missingColumn col)
    ∧ processAllChecked initState [] = Except.ok initState
    ∧ printSummary initState = Except.error Err.emptyAggregate := by
  refine ⟨?_, rfl, rfl⟩
  intro st cs e h
  exact processAllChecked_error_shape cs st e h

/-- Witness for C8's scan-error hypothesis at a concrete failing scan. -/
theorem claim8_witness :
    (processAllChecked initState [RawChunk.mk ["x"] []]
        = Except.error (Err.missingColumn ("order_date")))
    ∧ ∃ col, Err.missingColumn ("order_date") = Err.missingColumn col :=
  ⟨rfl, claim8_empty_aggregate_report_time.1 initState
    [RawChunk.mk ["x"] []] (Err.missingColumn ("order_date")) rfl⟩

/-- C9: if a required column is absent from a chunk after
normalization, processing the chunk fails with a missing-column error
(raised at the first column access that does not find its column), and
the full run on that input aborts with that error, producing no
summary. -/
theorem claim9_missing_column_aborts (st : SalesState) (c : RawChunk)
    (r : String) (hr : r ∈ requiredColumns)
    (hmiss : r ∉ c.header.map normalizeColumn) :
    ∃ col,
      processChunkChecked st c = Except.error (Err.missingColumn col)
      ∧ fullRun [c] = Except.error (Err.missingColumn col) := by
  obtain ⟨col, hcol⟩ := processChunkChecked_missing st c r hr hmiss
  have hcol0 : processChunkChecked initState c
      = Except.error (Err.missingColumn col) :=
    processChunkChecked_error_irrelevant st initState c _ hcol
  refine ⟨col, hcol, ?_⟩
  unfold fullRun
  have h4 : processAllChecked initState [c]
      = Except.error (Err.missingColumn col) := by
    show (processChunkChecked initState c >>= fun s =>
        List.foldlM processChunkChecked s []) = _
    rw [hcol0]
    rfl
  rw [h4]
  rfl

/-- Witness for C9 on a chunk whose header lacks order_date. -/
theorem claim9_witness :
    (("order_date" : String) ∈ requiredColumns)
    ∧ (("order_date" : String)
        ∉ (RawChunk.mk ["item_type"] []).header.map normalizeColumn)
    ∧ ∃ col,
        processChunkChecked initState (RawChunk.mk ["item_type"] [])
            = Except.error (Err.missingColumn col)
        ∧ fullRun [RawChunk.mk ["item_type"] []]
            = Except.error (Err.missingColumn col) :=
  ⟨by decide, by decide,
    claim9_missing_column_aborts initState (RawChunk.mk ["item_type"] [])
      ("order_date") (by decide) (by decide)⟩

/-- C10: every entry ever present in the monthly dict has batch count
at least one (the entry is created with count one and counts only ever
grow), so the final average computation never divides by zero. -/
theorem claim10_monthly_count_positive (bs : List (List SalesRow))
    (k : PMKey) (sc : ℚ × Nat)
    (h : (k, sc) ∈ (runChunks bs).monthly_sales) : 1 ≤ sc.2 :=
  count_ge_one_run bs (k, sc) h

/-- Witness for C10's membership hypothesis at a concrete run. -/
theorem claim10_witness :
    ((("P", some (2021, 1)), ((100 : ℚ), 1))
        ∈ (runChunks [[rowP100]]).monthly_sales)
    ∧ 1 ≤ (((100 : ℚ), 1) : ℚ × Nat).2 := by
  have hmem : ((("P", some (2021, 1)), ((100 : ℚ), 1))
      ∈ (runChunks [[rowP100]]).monthly_sales) := by
    norm_num +decide [runChunks, processChunk, monthlyGroupOf, groupSums,
      bumpMonthly, monthOf, rowP100, initState, List.insertionSort,
      List.orderedInsert, List.dedup, List.pwFilter, pmLe, pmLeB, monthLeB,
      charsLtB]
  exact ⟨hmem, claim10_monthly_count_positive [[rowP100]] _ _ hmem⟩
